import Mathlib

/-!
Verification of the Bit Shift Assembler (bs9.c), a two-pass 6809/6309
cross-assembler.  The definitions below are shallow embeddings of the
C functions named in their doc comments; machine integers are modelled
as Lean `Int`/`Nat` (overflow is irrelevant to every property proved
here), fatal `exit(1)` paths as `Option`/`Except` failures, and the
ROM/lock arrays as functions on addresses.
-/

namespace BS9

/-! ## Expression evaluator: operator functions (bs9.c:1888-1940) -/

/-- Sentinel for an unresolved expression, bs9.c:754: `#define UNDEF (int) 0xff0000`. -/
def UNDEF : Int := 0xff0000

/-- bs9.c:1888 `int op_mul(int l, int r) { return l * r; }` -/
def op_mul (l r : Int) : Int := l * r

/-- bs9.c:1889 `int op_div(int l, int r) { if (r) return l / r; else return UNDEF; }`
C division truncates toward zero (`Int.tdiv`).  There is no error path:
a zero divisor yields the sentinel, never a fatal error. -/
def op_div (l r : Int) : Int := if r ≠ 0 then l.tdiv r else UNDEF

/-- bs9.c:1890 addition. -/
def op_add (l r : Int) : Int := l + r

/-- bs9.c:1891 subtraction. -/
def op_sub (l r : Int) : Int := l - r

/-- bs9.c:1892 `l << r` (left shift, counts are nonnegative in practice). -/
def op_asl (l r : Int) : Int := l <<< r

/-- bs9.c:1893 `l >> r` (arithmetic right shift of a C int). -/
def op_lsr (l r : Int) : Int := l >>> r

/-- bs9.c:1894 `l <= r` yields 0/1. -/
def op_cle (l r : Int) : Int := if l ≤ r then 1 else 0

/-- bs9.c:1895 `l < r` yields 0/1. -/
def op_clt (l r : Int) : Int := if l < r then 1 else 0

/-- bs9.c:1896 `l >= r` yields 0/1. -/
def op_cge (l r : Int) : Int := if r ≤ l then 1 else 0

/-- bs9.c:1897 `l > r` yields 0/1. -/
def op_cgt (l r : Int) : Int := if r < l then 1 else 0

/-- bs9.c:1898 `l == r` yields 0/1. -/
def op_ceq (l r : Int) : Int := if l = r then 1 else 0

/-- bs9.c:1899 `l != r` yields 0/1. -/
def op_cne (l r : Int) : Int := if l ≠ r then 1 else 0

/-- bs9.c:1900 bitwise XOR. -/
def op_xor (l r : Int) : Int := Int.xor l r

/-- bs9.c:1901 C logical AND `l && r`. -/
def op_and (l r : Int) : Int := if l ≠ 0 ∧ r ≠ 0 then 1 else 0

/-- bs9.c:1902 bitwise AND. -/
def op_bnd (l r : Int) : Int := Int.land l r

/-- bs9.c:1903 C logical OR `l || r`. -/
def op_lor (l r : Int) : Int := if l ≠ 0 ∨ r ≠ 0 then 1 else 0

/-- bs9.c:1904 bitwise OR. -/
def op_bor (l r : Int) : Int := Int.lor l r

/-- Binary operator table, bs9.c:1917-1936 (`struct binop_struct binop[BINOPS]`):
operator text, priority, semantic function, in source order. -/
def binop : List (String × Nat × (Int → Int → Int)) :=
  [("*" , 11, op_mul),
   ("/" , 11, op_div),
   ("+" , 10, op_add),
   ("-" , 10, op_sub),
   ("<<",  9, op_asl),
   (">>",  9, op_lsr),
   ("<=",  8, op_cle),
   ("<" ,  8, op_clt),
   (">=",  8, op_cge),
   (">" ,  8, op_cgt),
   ("==",  7, op_ceq),
   ("!=",  7, op_cne),
   ("^" ,  5, op_xor),
   ("&&",  3, op_and),
   ("&" ,  6, op_bnd),
   ("||",  2, op_lor),
   ("|" ,  4, op_bor)]

/-- Application step for a binary operator inside `EvalOperand`, bs9.c:2014-2016:
`p = EvalOperand(p+l,&w,o); if (w == UNDEF) r = UNDEF; else r = binop[i].foo(r,w);`
Only the right operand `w` is tested against UNDEF; the left operand `r`
is fed to the operator unchecked. -/
def evalBinopStep (foo : Int → Int → Int) (r w : Int) : Int :=
  if w = UNDEF then UNDEF else foo r w

/-- Value effect of unary plus `op_plu`, bs9.c:1843 (identity on the
recursively evaluated operand). -/
def op_plu_val (v : Int) : Int := v

/-- Value effect of unary minus `op_min`, bs9.c:1844: `*v = -(*v)`. -/
def op_min_val (v : Int) : Int := -v

/-- Value effect of logical not `op_lno`, bs9.c:1845: `*v = !(*v)`. -/
def op_lno_val (v : Int) : Int := if v = 0 then 1 else 0

/-- Value effect of bitwise not `op_bno`, bs9.c:1846: `*v = ~(*v)`. -/
def op_bno_val (v : Int) : Int := Int.lnot v

/-- Value effect of the low-byte prefix `op_low`, bs9.c:1848: the operand
value is passed through unchanged, only `ForcedMode` is set. -/
def op_low_val (v : Int) : Int := v

/-- Value effect of the force-extended prefix `op_hig`, bs9.c:1850: the
operand value is passed through unchanged, only `ForcedMode` is set. -/
def op_hig_val (v : Int) : Int := v

/-! ## ROM image writer `Put` (bs9.c:362-376) -/

/-- Shallow embedding of `Put`, bs9.c:362-376.  The 65536-byte `ROM` array
and its parallel `LOCK` map are modelled as functions on addresses; the
fatal overwrite branch (`++ErrNum; ...; exit(1)`) is `none`; the masking
`v &= 0xff` of a two's-complement C int is its value modulo 256.
Source:
`v &= 0xff;`
`if (LOCK[i] && ROM[i] != v) { ... exit(1); }`
`ROM[i] = v; LOCK[i] = 1;` -/
def Put (rom : Nat → Nat) (lock : Nat → Bool) (i : Nat) (v : Int) :
    Option ((Nat → Nat) × (Nat → Bool)) :=
  let v : Nat := (v % 256).toNat
  if lock i = true ∧ rom i ≠ v then none
  else some (Function.update rom i v, Function.update lock i true)

/-! ## Conditional-assembly stack (bs9.c:2985-3070) -/

/-- Directive kinds handled by `CheckCondition`.  The directives `if`,
`ifdef` and `ifndef` behave identically with respect to the nesting
level, so one constructor covers all three. -/
inductive CondDirective where
  | iff  : CondDirective
  | els  : CondDirective
  | endf : CondDirective
deriving DecidableEq, Repr

/-- Fatal outcomes of `CheckCondition`. -/
inductive CondError where
  | tooManyNested  : CondError
  | endifWithoutIf : CondError
deriving DecidableEq, Repr

/-- Nesting-level effect of one conditional directive in `CheckCondition`
(bs9.c:2994-3070).  `if`/`ifdef`/`ifndef` execute `IfLevel++` and abort
when `IfLevel > 9` (bs9.c:3013-3019); `endif` executes `IfLevel--` and
aborts when `IfLevel < 0` (bs9.c:3058-3066); `else` leaves the level
unchanged.  The per-level skip flags do not influence these branches, and
`ParseLine` (bs9.c:4387) runs `CheckCondition` on every line before the
`Skipping` test, so skipped regions still pass through this function. -/
def CheckConditionStep (ifLevel : Int) : CondDirective → Except CondError Int
  | .iff  =>
      let l := ifLevel + 1
      if l > 9 then .error .tooManyNested else .ok l
  | .els  => .ok ifLevel
  | .endf =>
      let l := ifLevel - 1
      if l < 0 then .error .endifWithoutIf else .ok l

/-- Folding `CheckConditionStep` over the conditional directives of a
source program, starting from nesting level `ifLevel`. -/
def CheckConditionRun (ifLevel : Int) : List CondDirective → Except CondError Int
  | []      => .ok ifLevel
  | d :: ds =>
      match CheckConditionStep ifLevel d with
      | .error e => .error e
      | .ok l    => CheckConditionRun l ds

/-- Nesting level after one directive, ignoring the error checks. -/
def levelAfter (ifLevel : Int) : CondDirective → Int
  | .iff  => ifLevel + 1
  | .els  => ifLevel
  | .endf => ifLevel - 1

/-- Maximum nesting level (`IfLevel`) reached over the run of a directive
list, starting from `ifLevel`.  A program whose if/ifdef/ifndef frames
nest `n` deep reaches level `n`. -/
def maxNest (ifLevel : Int) : List CondDirective → Int
  | []      => ifLevel
  | d :: ds => max ifLevel (maxNest (levelAfter ifLevel d) ds)

/-! ## Peephole branch optimizer (bs9.c:3597-3653) -/

/-- Block 1 of the `if (Optimize)` rewrites in `GenerateCode`,
bs9.c:3599-3618: an overflowing short branch (`v < -128`, opcode
0x20..0x2f) is promoted to the long form — BRA (0x20) to LBRA (0x16),
any other short conditional branch to its 0x10-prefixed variant — in
pass 1, or in pass 2 when `ADL[pc] >= 3`.  The state is the quadruple
(opcode `oc`, opcode length `ol`, operand length `ql`, instruction
length `il`); `v` is the displacement `target - (pc + il)`. -/
def optFixShortBranch (phase : Nat) (adlPC : Int) (v : Int) :
    Nat × Nat × Nat × Nat → Nat × Nat × Nat × Nat
  | (oc, ol, ql, il) =>
    if v < -128 ∧ 0x20 ≤ oc ∧ oc < 0x30 ∧ (phase = 1 ∨ (phase = 2 ∧ 3 ≤ adlPC)) then
      if oc = 0x20 then (0x16, 1, 2, 3) else (oc ||| 0x1000, 2, 2, 4)
    else (oc, ol, ql, il)

/-- Block 2, bs9.c:3620-3639: a long conditional branch (opcode strictly
between 0x1020 and 0x1030) whose displacement lies in [-128, -1] is
demoted to its short variant (`oc &= 0xff; ol = 1; ql = 1; il = 2;`) in
pass 1, or in pass 2 when the pass-1 recorded length `ADL[pc]` is 2. -/
def optLongToShort (phase : Nat) (adlPC : Int) (v : Int) :
    Nat × Nat × Nat × Nat → Nat × Nat × Nat × Nat
  | (oc, ol, ql, il) =>
    if -128 ≤ v ∧ v < 0 ∧ 0x1020 < oc ∧ oc < 0x1030 ∧
        (phase = 1 ∨ (phase = 2 ∧ adlPC = 2)) then
      (oc &&& 0xff, 1, 1, 2)
    else (oc, ol, ql, il)

/-- Block 3, bs9.c:3641-3652: LBRA (0x16) whose displacement lies in
[-128, -1] is demoted to BRA (0x20) under the same phase condition. -/
def optLBRAToBRA (phase : Nat) (adlPC : Int) (v : Int) :
    Nat × Nat × Nat × Nat → Nat × Nat × Nat × Nat
  | (oc, ol, ql, il) =>
    if -128 ≤ v ∧ v < 0 ∧ oc = 0x16 ∧ (phase = 1 ∨ (phase = 2 ∧ adlPC = 2)) then
      (0x20, 1, 1, 2)
    else (oc, ol, ql, il)

/-- The three rewrite blocks of the peephole optimizer in source order
(bs9.c:3597-3653), as run when the optimizer is enabled. -/
def optimizeBranch (phase : Nat) (adlPC : Int) (oc ol ql il : Nat) (v : Int) :
    Nat × Nat × Nat × Nat :=
  optLBRAToBRA phase adlPC v
    (optLongToShort phase adlPC v
      (optFixShortBranch phase adlPC v (oc, ol, ql, il)))

/-! ## Pass-2 byte emission (bs9.c:3978-4080) -/

/-- Number of bytes the pass-2 emission tail actually stores before NOP
padding: opcode bytes (two for a 0x10/0x11-prefixed opcode,
bs9.c:3993-4002), one post-byte when `pb >= 0` (bs9.c:4004-4007), plus
`ql` operand bytes.  The addressing-mode paths of `GenerateCode` that
assign `ol` compute their `il` as this sum; the indirect-extended branch
does not (see `indirectExtendedIl`), so there `il` can differ from the
byte count that is really emitted. -/
def encLen (oc pb : Int) (ql : Nat) : Nat :=
  (if 255 < oc then 2 else 1) + (if 0 ≤ pb then 1 else 0) + ql

/-- The instruction length computed by the indirect-extended branch of
`GenerateCode`, bs9.c:3740-3745: for an operand `[addr]` with no comma
it sets `pb = 0x9f; ql = 2; il = ol + 3;` WITHOUT assigning the global
`ol` first (every other addressing path assigns `ol` before using it),
so `ol` still holds the opcode length of the PREVIOUS instruction. -/
def indirectExtendedIl (olStale : Nat) : Nat := olStale + 3

/-- The opcode bytes stored at `pc` (bs9.c:3991-4002): two bytes for a
0x10/0x11-prefixed opcode, else one; `Put` masks every stored byte with
0xff, which on a two's-complement C int is its value modulo 256. -/
def opcodeBytes (oc : Int) : List Int :=
  if 255 < oc then [(oc >>> 8) % 256, oc % 256] else [oc % 256]

/-- The post-byte, stored when `pb >= 0` (bs9.c:4004-4007). -/
def postBytes (pb : Int) : List Int := if 0 ≤ pb then [pb % 256] else []

/-- The 8-bit operand adjustment of bs9.c:4029-4032:
`if (v >= 0xff00 && v <= 0xffff) v &= 0xff;`
`if ((v-(DP<<8)) < 256 && (v-(DP<<8)) >= -128) v -= DP<<8;` -/
def dpAdjust (DP v : Int) : Int :=
  let v1 := if 0xff00 ≤ v ∧ v ≤ 0xffff then v % 256 else v
  if v1 - DP * 256 < 256 ∧ -128 ≤ v1 - DP * 256 then v1 - DP * 256 else v1

/-- The operand bytes emitted by the `ql == 4 / 2 / 1` blocks of
`GenerateCode` (bs9.c:4009-4041), with the fatal out-of-range checks as
`none` (bs9.c:4015-4024 for 16 bit, bs9.c:4033-4040 for 8 bit).  The
sequential `if (ql == ...)` tests of the source are rendered as a chain;
at most one of them can fire for any `ql`. -/
def operandBytes (DP : Int) (ql : Nat) (v : Int) : Option (List Int) :=
  if ql = 4 then
    some [(v >>> 24) % 256, (v >>> 16) % 256, (v >>> 8) % 256, v % 256]
  else if ql = 2 then
    if 0xffff < v ∨ v < -32768 then none
    else some [(v >>> 8) % 256, v % 256]
  else if ql = 1 then
    if 255 < dpAdjust DP v ∨ dpAdjust DP v < -128 then none
    else some [dpAdjust DP v % 256]
  else some []

/-- The pass-2 tail of `GenerateCode` (bs9.c:3978-4060): `Synchronize`
computes `nops = ADL[pc] - il` (bs9.c:2977), the undefined-label check
(bs9.c:3982-3987) and the operand range checks are the fatal `none`
paths, and the emitted bytes are opcode, optional post-byte, operand
bytes, then `nops` NOP (0x12) bytes (bs9.c:4043, a C for loop that runs
zero times when `nops <= 0`).  `adlPC` is `ADL[pc]`, the instruction
length recorded at this PC in pass 1; `il` is the instruction length the
addressing-mode selection just computed (equal to `encLen oc pb ql` in
the paths that assign `ol`, but `indirectExtendedIl` of a stale `ol` in
the indirect-extended branch); `DP` is the direct-page register. -/
def insertBinaryCode (DP : Int) (adlPC il : Nat) (oc pb : Int) (ql : Nat)
    (v : Int) : Option (List Int) :=
  if v = UNDEF ∧ 0 < ql then none
  else
    (operandBytes DP ql v).map (fun q =>
      opcodeBytes oc ++ postBytes pb ++ q ++
        List.replicate ((adlPC : Int) - (il : Int)).toNat 0x12)

/-! ## S-record output (bs9.c:4723-4800) -/

/-- The four S-record types the assembler emits. -/
inductive SRecType where
  | S0 : SRecType
  | S1 : SRecType
  | S5 : SRecType
  | S9 : SRecType
deriving DecidableEq, Repr

/-- One call of `WriteS19Line` as issued by `WriteS19Format`: record type,
`PayloadSize`, `Address` and the `Data` bytes passed in. -/
structure S19Call where
  rtype : SRecType
  size : Nat
  addr : Nat
  data : List Nat
deriving DecidableEq, Repr

/-- Fields of one rendered S-record line: the printed count byte, the
address, the data bytes and the checksum byte. -/
structure RenderedS19 where
  count : Nat
  addr : Nat
  data : List Nat
  checksum : Nat
deriving DecidableEq, Repr

/-- Shallow embedding of `WriteS19Line` (bs9.c:4723-4742).  The source
accumulates `Checksum = PayloadSize + 3 + (Address & 0xff) + (Address >> 8)`
plus all data bytes, prints the count `PayloadSize + 3`, the address, the
data, and finally `~Checksum & 0xff`; the complement of the nonnegative
32-bit int `Checksum` masked to a byte is
`(0x100000000 - 1 - Checksum % 0x100000000) % 256`. -/
def WriteS19Line (size addr : Nat) (data : List Nat) : RenderedS19 :=
  { count := size + 3
    addr := addr
    data := data
    checksum :=
      (0x100000000 - 1 -
        (size + 3 + addr % 256 + addr / 256 + data.sum) % 0x100000000) % 256 }

/-- Data bytes passed to an S1 record: `&ROM[Addr]` read for `B` bytes. -/
def romRange (rom : Nat → Nat) (addr B : Nat) : List Nat :=
  (List.range B).map (fun k => rom (addr + k))

/-- The S1 loop of `WriteS19Format` (bs9.c:4776-4782):
`while (UnwrittenBytes > 0) { WriteS19Line(bf,"S1",BytesInThisLine,Addr,&ROM[Addr]);
++SFR[i]; Addr += BytesInThisLine; UnwrittenBytes -= BytesInThisLine; }`.
`BytesInThisLine` (here `B`) is loop-invariant, exactly as in the source.
The extra `fuel` argument only bounds the number of iterations so the
function is structurally recursive; `WriteS19Format` passes `len`, which
is never exhausted because each executed iteration decreases the
remaining count by `B >= 1`. -/
def s1Loop (rom : Nat → Nat) (B : Nat) : Nat → Nat → Int → List S19Call
  | 0, _, _ => []
  | fuel + 1, addr, u =>
    if 0 < u then
      ⟨SRecType.S1, B, addr, romRange rom addr B⟩ ::
        s1Loop rom B fuel (addr + B) (u - B)
    else []

/-- Payload of the S0 header record: the string "Bit Shift Assembler"
(bs9.c:4771-4773, `strlen(buf)` = 19). -/
def headerBytes : List Nat := "Bit Shift Assembler".toList.map Char.toNat

/-- Shallow embedding of `WriteS19Format` (bs9.c:4745-4790) as the list
of `WriteS19Line` calls it issues: one S0 header, the S1 loop with
`BytesInThisLine` computed ONCE before the loop
(`BytesInThisLine = 32; if (UnwrittenBytes < 32) BytesInThisLine = UnwrittenBytes;`),
one S5 record whose address field is the S1 record count `SFR[i]`, and an
S9 record iff an entry address was given (`SFE[i] > -1`). -/
def WriteS19Format (rom : Nat → Nat) (start len : Nat) (entry : Int) :
    List S19Call :=
  let B := if len < 32 then len else 32
  let s1s := s1Loop rom B len start (len : Int)
  ⟨SRecType.S0, headerBytes.length, 0, headerBytes⟩ ::
    s1s ++ [⟨SRecType.S5, 0, s1s.length, []⟩] ++
    (if -1 < entry then [⟨SRecType.S9, 0, entry.toNat, []⟩] else [])

/-- Total number of data bytes carried by the S1 records of a call list. -/
def s1DataTotal (calls : List S19Call) : Nat :=
  (calls.filter (fun c => c.rtype = SRecType.S1)).foldl
    (fun a c => a + c.data.length) 0

/-- Example ROM contents used to evaluate the writer at concrete inputs. -/
def demoROM : Nat → Nat := fun a => a % 256

/-! ## Pass driver (bs9.c:4581-4628, main bs9.c:4942-4944) -/

/-- Error cap, bs9.c:763: `int ERRMAX = 10;` (never modified elsewhere). -/
def ERRMAX : Nat := 10

/-- Outcome of the `Phase2` loop: final error count, number of STORE
requests registered, and whether the loop was cut short by the error cap
(bs9.c:4621-4626: `if (ErrNum >= ERRMAX) { ...; return; }`). -/
structure Phase2Result where
  errNum : Nat
  storeCount : Nat
  stoppedEarly : Bool
deriving DecidableEq, Repr

/-- The `Phase2` line loop (bs9.c:4608-4627).  Each source line is
abstracted by the pair (non-fatal errors its `ParseLine` adds to
`ErrNum`, STORE requests it registers via `ParseStoreData`); after each
line the loop returns early when `ErrNum >= ERRMAX`. -/
def Phase2Loop (errNum storeCount : Nat) : List (Nat × Nat) → Phase2Result
  | [] => ⟨errNum, storeCount, false⟩
  | l :: ls =>
    let e := errNum + l.1
    let s := storeCount + l.2
    if ERRMAX ≤ e then ⟨e, s, true⟩ else Phase2Loop e s ls

/-- Run of pass 2 from a fresh state. -/
def Phase2Run (lines : List (Nat × Nat)) : Phase2Result := Phase2Loop 0 0 lines

/-- Shallow embedding of `WriteBinaries` (bs9.c:4793-4801): it writes one
output file for every registered request `i < StoreCount`,
unconditionally. -/
def WriteBinaries (r : Phase2Result) : Nat := r.storeCount

/-- The tail of `main` (bs9.c:4942-4944): `Phase1(); Phase2();
WriteBinaries();` — `WriteBinaries` is invoked unconditionally after
`Phase2` returns, with no test of the error count or of early
termination.  Result: the number of STORE output files written. -/
def mainStoreFiles (lines : List (Nat × Nat)) : Nat :=
  WriteBinaries (Phase2Run lines)

/-! ## Push/pull register list scanner (bs9.c:735-751, 3374-3398) -/

/-- bs9.c:961-964 `isym`: `c == '.' || c == '$' || c == '_' || isalnum(c)`. -/
def isym (c : Char) : Bool :=
  c = '.' || c = '$' || c = '_' || c.isAlphanum

/-- C `isspace` on ASCII: space, tab, newline, vertical tab, form feed,
carriage return. -/
def isspace (c : Char) : Bool :=
  c = ' ' || c = '\t' || c = '\n' || c = '\x0b' || c = '\x0c' || c = '\r'

/-- bs9.c:914-918 `SkipSpace`, on a NUL-terminated string modelled as a
character list. -/
def SkipSpace (p : List Char) : List Char :=
  match p with
  | [] => []
  | c :: r => if isspace c then SkipSpace r else p

/-- bs9.c `StrNCaseCmp(a,b,n) == 0`: the first `n` characters agree after
`toupper`, where running off the end of one string compares its NUL
terminator (the loop bound `i <= strlen` includes it). -/
def StrNCaseEq : List Char → List Char → Nat → Bool
  | _, _, 0 => true
  | [], [], _ + 1 => true
  | [], _ :: _, _ + 1 => false
  | _ :: _, [], _ + 1 => false
  | a :: as, b :: bs, n + 1 =>
      if a.toUpper = b.toUpper then StrNCaseEq as bs n else false

/-- bs9.c:1044-1050 `strcmpword(s1,s2) == 0`: `s1` starts with `s2`
(case-insensitively) at a word boundary — the character of `s1` after
the match must not be a symbol character (the NUL at the end of `s1` is
not one). -/
def strcmpword (s1 s2 : List Char) : Bool :=
  StrNCaseEq s1 s2 s2.length &&
    !(match s1.drop s2.length with
      | [] => false
      | c :: _ => isym c)

/-- The register/mask table `PushList` of bs9.c:735-751, in source order
(index 0 = CC .. index 9 = PC). -/
def PushList : List (List Char × Nat) :=
  [(['C', 'C'], 0x01),
   (['A'],      0x02),
   (['B'],      0x04),
   (['D'],      0x06),
   (['D', 'P'], 0x08),
   (['X'],      0x10),
   (['Y'],      0x20),
   (['S'],      0x40),
   (['U'],      0x40),
   (['P', 'C'], 0x80)]

/-- The inner scan of `ScanPushList` (bs9.c:3383-3389):
`for (i=9 ; i >= 0 ; --i)` tries the table entries from PC down to CC
(this is why DP is tried before D) and stops at the first `strcmpword`
match; `i < 0` is the `OperandError` path.  Returns the matched mask and
name length. -/
def findPushReg (p : List Char) : Option (Nat × Nat) :=
  (PushList.reverse.find? (fun e => strcmpword p e.1)).map
    (fun e => (e.2, e.1.length))

/-- The `while (*p)` loop of `ScanPushList` (bs9.c:3381-3396): match a
register name, OR its mask into `v`, skip spaces, require `,` or end of
string, consume the comma and following spaces, repeat.  The `fuel`
argument only makes the recursion structural; `ScanPushList` passes the
string length, which cannot be exhausted because every iteration
consumes at least the matched name (one character or more). -/
def scanPushLoop : Nat → List Char → Nat → Option Nat
  | _, [], v => some v
  | 0, _ :: _, _ => none
  | fuel + 1, p, v =>
    match findPushReg p with
    | none => none
    | some (val, len) =>
      match SkipSpace (p.drop len) with
      | [] => some (v ||| val)
      | ',' :: r => scanPushLoop fuel (SkipSpace r) (v ||| val)
      | _ :: _ => none

/-- bs9.c:3374-3398 `ScanPushList`: the operand `ALL` yields 0xff
(bs9.c:3379); otherwise the comma-separated register names are scanned
and their masks ORed together. -/
def ScanPushList (p : List Char) : Option Nat :=
  if strcmpword p ['A', 'L', 'L'] then some 0xff
  else scanPushLoop p.length p 0

/-- The registers accepted in a push/pull list. -/
inductive PushReg where
  | CC : PushReg
  | A  : PushReg
  | B  : PushReg
  | D  : PushReg
  | DP : PushReg
  | X  : PushReg
  | Y  : PushReg
  | S  : PushReg
  | U  : PushReg
  | PC : PushReg
deriving DecidableEq, Repr

/-- Name of a push/pull register as written in the operand field. -/
def pushRegChars : PushReg → List Char
  | .CC => ['C', 'C']
  | .A  => ['A']
  | .B  => ['B']
  | .D  => ['D']
  | .DP => ['D', 'P']
  | .X  => ['X']
  | .Y  => ['Y']
  | .S  => ['S']
  | .U  => ['U']
  | .PC => ['P', 'C']

/-- Mask of a push/pull register per the `PushList` table of
bs9.c:735-751: CC=0x01, A=0x02, B=0x04, D=0x06, DP=0x08, X=0x10, Y=0x20,
S=0x40, U=0x40, PC=0x80. -/
def pushRegMask : PushReg → Nat
  | .CC => 0x01
  | .A  => 0x02
  | .B  => 0x04
  | .D  => 0x06
  | .DP => 0x08
  | .X  => 0x10
  | .Y  => 0x20
  | .S  => 0x40
  | .U  => 0x40
  | .PC => 0x80

/-- A comma-separated register list as it appears in the operand field. -/
def renderPushList : List PushReg → List Char
  | [] => []
  | [r] => pushRegChars r
  | r :: rs => pushRegChars r ++ ',' :: renderPushList rs

end BS9

namespace BS9

/-- C3 fails: with a defined right operand, an UNDEF left operand is fed to
the operator (bs9.c:2016), e.g. `UNDEF + 1 = 0xff0001 ≠ UNDEF`; and the
unary minus (bs9.c:1844) maps UNDEF to `-UNDEF ≠ UNDEF`. -/
theorem evalBinopStep_left_undef_not_propagated :
    evalBinopStep op_add UNDEF 1 = 0xff0001 ∧ (0xff0001 : Int) ≠ UNDEF ∧
    op_min_val UNDEF = -0xff0000 ∧ op_min_val UNDEF ≠ UNDEF := by
  refine ⟨by decide, by decide, by decide, by decide⟩

/-- C3 (amended): for every binary operator of the evaluator the result is
UNDEF whenever the RIGHT operand is UNDEF (the left operand is not
checked), and of the unary operators exactly the value-preserving ones
`+`, `<`, `>` map UNDEF to UNDEF (`-`, `!`, `~` transform the sentinel). -/
theorem evalBinopStep_right_undef_propagates
    (e : String × Nat × (Int → Int → Int)) (he : e ∈ binop) (r : Int) :
    evalBinopStep e.2.2 r UNDEF = UNDEF ∧
    op_plu_val UNDEF = UNDEF ∧ op_low_val UNDEF = UNDEF ∧
    op_hig_val UNDEF = UNDEF := by
  refine ⟨?_, rfl, rfl, rfl⟩
  simp [evalBinopStep]

/-- Witness for the amended C3 at the first table entry and r = 5. -/
theorem evalBinopStep_right_undef_witness :
    evalBinopStep op_mul 5 UNDEF = UNDEF :=
  (evalBinopStep_right_undef_propagates ("*", 11, op_mul) (List.Mem.head _) 5).1

/-- C8: division by zero yields UNDEF — `op_div` (bs9.c:1889) has no error
path, so the evaluator returns the sentinel instead of aborting; the step
`evalBinopStep` then passes the sentinel through (0 is not UNDEF). -/
theorem op_div_zero_yields_undef (l : Int) :
    op_div l 0 = UNDEF ∧ evalBinopStep op_div l 0 = UNDEF := by
  constructor
  · simp [op_div]
  · simp [evalBinopStep, op_div, UNDEF]

/-- Witness for C8 at dividend 7. -/
theorem op_div_zero_yields_undef_witness :
    op_div 7 0 = UNDEF ∧ evalBinopStep op_div 7 0 = UNDEF :=
  op_div_zero_yields_undef 7

/-- The nesting level reached at the start is a lower bound for the
maximum level over the whole run. -/
theorem le_maxNest (ds : List CondDirective) (l : Int) : l ≤ maxNest l ds := by
  cases ds with
  | nil => exact le_refl l
  | cons d ds => exact le_max_left _ _

/-- C9 fails: ten nested conditions reach maximum nesting level 10, yet
`CheckCondition` aborts with the too-many-nested error on the tenth
`if` (bs9.c:3013-3019 tests `IfLevel > 9` after `IfLevel++`). -/
theorem checkCondition_ten_deep_fatal :
    maxNest 0 (List.replicate 10 CondDirective.iff) = 10 ∧
    CheckConditionRun 0 (List.replicate 10 CondDirective.iff) =
      Except.error CondError.tooManyNested := by
  constructor
  · rfl
  · rfl

/-- C9 (amended): conditional assembly supports nesting up to 9 levels
deep — for every directive sequence whose nesting level never exceeds 9,
the fatal too-many-nested branch of `CheckCondition` is never reached
(the tenth nested condition would trigger it). -/
theorem checkCondition_nest_le_nine_ok (ds : List CondDirective) (l : Int)
    (hl : 0 ≤ l) (h : maxNest l ds ≤ 9) :
    CheckConditionRun l ds ≠ Except.error CondError.tooManyNested := by
  induction ds generalizing l with
  | nil => simp [CheckConditionRun]
  | cons d ds ih =>
    cases d with
    | iff =>
      have h2 : maxNest (l + 1) ds ≤ 9 := le_trans (le_max_right _ _) h
      have h3 : l + 1 ≤ 9 := le_trans (le_maxNest ds (l + 1)) h2
      have h4 : ¬(l + 1 > 9) := by omega
      simp only [CheckConditionRun, CheckConditionStep, h4, if_false, if_neg h4]
      exact ih (l + 1) (by omega) h2
    | els =>
      have h2 : maxNest l ds ≤ 9 := le_trans (le_max_right _ _) h
      simp only [CheckConditionRun, CheckConditionStep]
      exact ih l hl h2
    | endf =>
      have h2 : maxNest (l - 1) ds ≤ 9 := le_trans (le_max_right _ _) h
      simp only [CheckConditionRun, CheckConditionStep]
      by_cases h5 : l - 1 < 0
      · simp [h5]
      · simp only [h5, if_neg h5, if_false]
        exact ih (l - 1) (by omega) h2

/-- Witness for the amended C9: nine nested conditions pass. -/
theorem checkCondition_nine_deep_ok :
    CheckConditionRun 0 (List.replicate 9 CondDirective.iff) ≠
      Except.error CondError.tooManyNested :=
  checkCondition_nest_le_nine_ok (List.replicate 9 CondDirective.iff) 0
    (by decide) (by decide)

/-- C10: a byte written through `Put` (bs9.c:362-376) is locked and final.
A later `Put` of the same value at a locked address succeeds and leaves
both the ROM and the lock map unchanged; a `Put` of a different value at
a locked address takes the fatal overwrite branch; and every successful
`Put` preserves the contents and the locked status of all locked
addresses. -/
theorem Put_locked_byte_final (rom : Nat → Nat) (lock : Nat → Bool)
    (i : Nat) (v : Int) :
    (lock i = true → rom i = (v % 256).toNat →
        Put rom lock i v = some (rom, lock)) ∧
    (lock i = true → rom i ≠ (v % 256).toNat →
        Put rom lock i v = none) ∧
    (∀ rom2 lock2, Put rom lock i v = some (rom2, lock2) →
        ∀ j, lock j = true → rom2 j = rom j ∧ lock2 j = true) := by
  refine ⟨?_, ?_, ?_⟩
  · intro hl hv
    simp only [Put]
    rw [if_neg (by simp [hl, hv])]
    rw [← hv, Function.update_eq_self]
    have : Function.update lock i true = lock := by
      rw [← hl, Function.update_eq_self]
    rw [this]
  · intro hl hv
    simp only [Put]
    rw [if_pos ⟨hl, hv⟩]
  · intro rom2 lock2 hput j hj
    simp only [Put] at hput
    by_cases hc : lock i = true ∧ rom i ≠ (v % 256).toNat
    · rw [if_pos hc] at hput
      exact absurd hput (by simp)
    · rw [if_neg hc] at hput
      have h2 := Option.some.inj hput
      have hrom : rom2 = Function.update rom i (v % 256).toNat :=
        (congrArg Prod.fst h2).symm
      have hlock : lock2 = Function.update lock i true :=
        (congrArg Prod.snd h2).symm
      subst hrom hlock
      by_cases hij : j = i
      · subst hij
        have hval : rom j = (v % 256).toNat := by
          by_contra hne
          exact hc ⟨hj, hne⟩
        constructor
        · rw [Function.update_same, hval]
        · rw [Function.update_same]
      · constructor
        · rw [Function.update_noteq hij]
        · rw [Function.update_noteq hij]; exact hj

/-- Witness for C10: re-emitting the value already stored at a locked
address (as pass 2 does for bytes written in pass 1) succeeds and leaves
the state unchanged. -/
theorem Put_locked_byte_final_witness :
    Put (fun _ => 18) (fun _ => true) 0 18 =
      some (fun _ => 18, fun _ => true) :=
  (Put_locked_byte_final (fun _ => 18) (fun _ => true) 0 18).1 rfl (by decide)

/-- Opcodes strictly between 0x1020 and 0x1030 have low byte 0x21..0x2f,
never 0x16. -/
theorem land_byte_of_long_cond (oc : Nat) (h1 : 0x1020 < oc) (h2 : oc < 0x1030) :
    oc &&& 0xff = oc - 0x1000 ∧ oc &&& 0xff ≠ 0x16 := by
  interval_cases oc <;> exact ⟨by decide, by decide⟩

/-- Unfolding equation for `optFixShortBranch` on an explicit quadruple. -/
theorem optFixShortBranch_spec {phase : Nat} {adlPC : Int} {v : Int}
    {oc ol ql il : Nat} :
    optFixShortBranch phase adlPC v (oc, ol, ql, il) =
      if v < -128 ∧ 0x20 ≤ oc ∧ oc < 0x30 ∧ (phase = 1 ∨ (phase = 2 ∧ 3 ≤ adlPC)) then
        if oc = 0x20 then (0x16, 1, 2, 3) else (oc ||| 0x1000, 2, 2, 4)
      else (oc, ol, ql, il) := rfl

/-- Unfolding equation for `optLongToShort` on an explicit quadruple. -/
theorem optLongToShort_spec {phase : Nat} {adlPC : Int} {v : Int}
    {oc ol ql il : Nat} :
    optLongToShort phase adlPC v (oc, ol, ql, il) =
      if -128 ≤ v ∧ v < 0 ∧ 0x1020 < oc ∧ oc < 0x1030 ∧
          (phase = 1 ∨ (phase = 2 ∧ adlPC = 2)) then
        (oc &&& 0xff, 1, 1, 2)
      else (oc, ol, ql, il) := rfl

/-- Unfolding equation for `optLBRAToBRA` on an explicit quadruple. -/
theorem optLBRAToBRA_spec {phase : Nat} {adlPC : Int} {v : Int}
    {oc ol ql il : Nat} :
    optLBRAToBRA phase adlPC v (oc, ol, ql, il) =
      if -128 ≤ v ∧ v < 0 ∧ oc = 0x16 ∧ (phase = 1 ∨ (phase = 2 ∧ adlPC = 2)) then
        (0x20, 1, 1, 2)
      else (oc, ol, ql, il) := rfl

/-- C6 fails: with the optimizer enabled, a long conditional branch whose
displacement fits in 8 bits but is nonnegative (here LBNE = 0x1026 with
displacement 16) is NOT rewritten; and when the rewrite does fire
(displacement -16) the instruction shrinks from 4 bytes to 2 bytes, not
by one byte. -/
theorem optimizeBranch_positive_fit_not_rewritten :
    optimizeBranch 1 0 0x1026 2 2 4 16 = (0x1026, 2, 2, 4) ∧
    optimizeBranch 1 0 0x1026 2 2 4 (-16) = (0x26, 1, 1, 2) ∧
    (4 : Nat) - 2 ≠ 1 := by
  refine ⟨by decide, by decide, by decide⟩

/-- C6 (amended): with the optimizer enabled, a long conditional branch
(opcode 0x1021..0x102f, lengths ol=2 ql=2 il=4) whose displacement lies
in [-128, -1] is rewritten to its short variant with the 0x10 prefix
dropped and il = 2 (shrinking 2 bytes), and LBRA (0x16, ol=1 ql=2 il=3)
with displacement in [-128, -1] is rewritten to BRA (0x20) with il = 2
(shrinking 1 byte) — in pass 1, or in pass 2 when ADL[pc] = 2; a
displacement in [0, 127] is never rewritten. -/
theorem optimizeBranch_backward_only (phase : Nat) (adlPC : Int)
    (oc ol ql il : Nat) (v : Int)
    (hph : phase = 1 ∨ (phase = 2 ∧ adlPC = 2)) :
    (-128 ≤ v → v < 0 → 0x1020 < oc → oc < 0x1030 →
        optimizeBranch phase adlPC oc 2 2 4 v = (oc - 0x1000, 1, 1, 2)) ∧
    (-128 ≤ v → v < 0 →
        optimizeBranch phase adlPC 0x16 1 2 3 v = (0x20, 1, 1, 2)) ∧
    (0 ≤ v → v ≤ 127 →
        optimizeBranch phase adlPC oc ol ql il v = (oc, ol, ql, il)) := by
  refine ⟨?_, ?_, ?_⟩
  · intro h1 h2 h3 h4
    obtain ⟨hlow, hne⟩ := land_byte_of_long_cond oc h3 h4
    simp only [optimizeBranch]
    rw [optFixShortBranch_spec, if_neg (by rintro ⟨hx, _⟩; omega)]
    rw [optLongToShort_spec, if_pos ⟨h1, h2, h3, h4, hph⟩]
    rw [optLBRAToBRA_spec, if_neg (by rintro ⟨_, _, hx, _⟩; exact hne hx)]
    rw [hlow]
  · intro h1 h2
    simp only [optimizeBranch]
    rw [optFixShortBranch_spec, if_neg (by rintro ⟨hx, _⟩; omega)]
    rw [optLongToShort_spec, if_neg (by rintro ⟨_, _, hx, _⟩; omega)]
    rw [optLBRAToBRA_spec, if_pos ⟨h1, h2, rfl, hph⟩]
  · intro h1 h2
    simp only [optimizeBranch]
    rw [optFixShortBranch_spec, if_neg (by rintro ⟨hx, _⟩; omega)]
    rw [optLongToShort_spec, if_neg (by rintro ⟨_, hx, _⟩; omega)]
    rw [optLBRAToBRA_spec, if_neg (by rintro ⟨_, hx, _⟩; omega)]

/-- Witness for the amended C6: LBNE 0x1026 at displacement -16 in pass 1
becomes BNE 0x26 with il = 2, and displacement 16 is untouched. -/
theorem optimizeBranch_backward_only_witness :
    optimizeBranch 1 0 0x1026 2 2 4 (-16) = (0x26, 1, 1, 2) ∧
    optimizeBranch 1 0 0x1026 2 2 4 16 = (0x1026, 2, 2, 4) := by
  have h := optimizeBranch_backward_only 1 0 0x1026 2 2 4 (-16) (Or.inl rfl)
  have h2 := optimizeBranch_backward_only 1 0 0x1026 2 2 4 16 (Or.inl rfl)
  constructor
  · have := h.1 (by decide) (by decide) (by decide) (by decide)
    simpa using this
  · exact h2.2.2 (by decide) (by decide)

/-- C1 fails: a run that registers one STORE request and then accumulates
ten non-fatal errors makes `Phase2` return early at the error cap
(bs9.c:4621-4626), yet `main` still calls `WriteBinaries`
(bs9.c:4942-4944) and the registered output file is written. -/
theorem mainStoreFiles_written_despite_early_stop :
    (Phase2Run ((0, 1) :: List.replicate 10 (1, 0))).stoppedEarly = true ∧
    mainStoreFiles ((0, 1) :: List.replicate 10 (1, 0)) = 1 ∧ (1 : Nat) ≠ 0 := by
  refine ⟨by decide, by decide, by decide⟩

/-- C1 (amended): `WriteBinaries` runs unconditionally after `Phase2`
returns, so when pass 2 is terminated early by the error cap every STORE
request registered up to that point is still written out; binary output
is prevented only by fatal errors that `exit(1)` the process before
`main` reaches `WriteBinaries`. -/
theorem mainStoreFiles_unconditional (lines : List (Nat × Nat))
    (hearly : (Phase2Run lines).stoppedEarly = true)
    (hstores : 0 < (Phase2Run lines).storeCount) :
    0 < mainStoreFiles lines ∧
    mainStoreFiles lines = (Phase2Run lines).storeCount := by
  exact ⟨hstores, rfl⟩

/-- Witness for the amended C1 at the concrete early-terminating run. -/
theorem mainStoreFiles_unconditional_witness :
    0 < mainStoreFiles ((0, 1) :: List.replicate 10 (1, 0)) :=
  (mainStoreFiles_unconditional ((0, 1) :: List.replicate 10 (1, 0))
    (by decide) (by decide)).1

/-- C5: for every record rendered by `WriteS19Line`, the checksum byte is
the one's complement of the low byte of the sum of the count byte, the
two address bytes and the data bytes; equivalently that sum plus the
checksum is congruent to 0xff modulo 256. -/
theorem writeS19Line_checksum (size addr : Nat) (data : List Nat)
    (haddr : addr < 0x10000) :
    ((WriteS19Line size addr data).count + addr / 256 + addr % 256 +
        (WriteS19Line size addr data).data.sum +
        (WriteS19Line size addr data).checksum) % 256 = 0xff ∧
    (WriteS19Line size addr data).checksum =
      255 - ((size + 3 + addr % 256 + addr / 256 + data.sum) % 256) := by
  simp only [WriteS19Line]
  omega

/-- Witness for C5 at the spec's own example record
`S1 07 0100 DE AD BE EF`. -/
theorem writeS19Line_checksum_witness :
    ((WriteS19Line 4 0x100 [0xde, 0xad, 0xbe, 0xef]).count + 0x100 / 256 +
        0x100 % 256 + (WriteS19Line 4 0x100 [0xde, 0xad, 0xbe, 0xef]).data.sum +
        (WriteS19Line 4 0x100 [0xde, 0xad, 0xbe, 0xef]).checksum) % 256 = 0xff :=
  (writeS19Line_checksum 4 0x100 [0xde, 0xad, 0xbe, 0xef] (by decide)).1

/-- C4 is a code bug: `BytesInThisLine` is computed once before the S1
loop (bs9.c:4774-4775) and never recomputed inside it, so a STORE of 40
bytes at $0100 emits two 32-byte S1 records covering 64 bytes — 24 bytes
beyond the requested range — instead of records covering exactly 40
bytes; the loop bookkeeping (`UnwrittenBytes`) shows the intent was to
emit exactly the remaining bytes. -/
theorem writeS19Format_overrun :
    s1DataTotal (WriteS19Format demoROM 0x100 40 (-1)) = 64 ∧
    ((WriteS19Format demoROM 0x100 40 (-1)).filter
        (fun c => c.rtype = SRecType.S1)).map (fun c => c.size) = [32, 32] ∧
    (64 : Nat) ≠ 40 := by
  refine ⟨by decide, by decide, by decide⟩

/-- The operand-byte lists produced by `operandBytes` have exactly `ql`
elements for the operand lengths that occur (0, 1, 2 and 4 bytes). -/
theorem operandBytes_length (DP : Int) (ql : Nat) (v : Int) (q : List Int)
    (hq : ql = 0 ∨ ql = 1 ∨ ql = 2 ∨ ql = 4)
    (h : operandBytes DP ql v = some q) : q.length = ql := by
  rcases hq with h0 | h0 | h0 | h0 <;> subst h0
  · have h2 : some ([] : List Int) = some q := h
    rw [← Option.some.inj h2]; rfl
  · have h2 : (if 255 < dpAdjust DP v ∨ dpAdjust DP v < -128 then none
        else some [dpAdjust DP v % 256]) = some q := h
    split at h2
    · exact absurd h2 (by simp)
    · rw [← Option.some.inj h2]; rfl
  · have h2 : (if 0xffff < v ∨ v < -32768 then none
        else some [(v >>> 8) % 256, v % 256]) = some q := h
    split at h2
    · exact absurd h2 (by simp)
    · rw [← Option.some.inj h2]; rfl
  · have h2 : some [(v >>> 24) % 256, (v >>> 16) % 256, (v >>> 8) % 256,
        v % 256] = some q := h
    rw [← Option.some.inj h2]; rfl

/-- When the addressing-mode selection computed `il` as the true encoding
length `encLen oc pb ql` (every path that assigns `ol` does) and the
pass-1 slot is at least as long, the emission fills the slot exactly:
the byte count equals `ADL[pc]` and the tail of the slot is NOP (0x12)
padding. -/
theorem insertBinaryCode_fills_slot (DP : Int) (adlPC : Nat) (oc pb : Int)
    (ql : Nat) (v : Int) (bytes : List Int)
    (hq : ql = 0 ∨ ql = 1 ∨ ql = 2 ∨ ql = 4)
    (hle : encLen oc pb ql ≤ adlPC)
    (hemit : insertBinaryCode DP adlPC (encLen oc pb ql) oc pb ql v = some bytes) :
    bytes.length = adlPC ∧
    ∃ core : List Int, core.length = encLen oc pb ql ∧
      bytes = core ++ List.replicate (adlPC - encLen oc pb ql) 0x12 := by
  by_cases hcond : v = UNDEF ∧ 0 < ql
  · rw [insertBinaryCode, if_pos hcond] at hemit
    exact absurd hemit (by simp)
  · rw [insertBinaryCode, if_neg hcond] at hemit
    obtain ⟨q, hq_eq, hbytes⟩ := Option.map_eq_some'.mp hemit
    have hq_len : q.length = ql := operandBytes_length DP ql v q hq hq_eq
    have hoc_len : (opcodeBytes oc).length = if 255 < oc then 2 else 1 := by
      rw [opcodeBytes]; split <;> rfl
    have hpb_len : (postBytes pb).length = if 0 ≤ pb then 1 else 0 := by
      rw [postBytes]; split <;> rfl
    have hnops : ((adlPC : Int) - (encLen oc pb ql : Int)).toNat =
        adlPC - encLen oc pb ql := by omega
    have hcore_len : (opcodeBytes oc ++ postBytes pb ++ q).length =
        encLen oc pb ql := by
      simp only [List.length_append, hoc_len, hpb_len, hq_len, encLen]
    refine ⟨?_, opcodeBytes oc ++ postBytes pb ++ q, hcore_len, ?_⟩
    · rw [← hbytes]
      simp only [List.length_append, List.length_replicate, hnops]
      simp only [List.length_append] at hcore_len
      omega
    · rw [← hbytes, hnops]

/-- C2 is a code bug: the indirect-extended branch (bs9.c:3740-3745)
computes `il = ol + 3` without assigning `ol`, so after `LDY #1`
(0x10-prefixed immediate, bs9.c:3696 leaves `ol = 2`) the instruction
`LDA [$1234]` records `ADL[pc] = 2 + 3 = 5` in pass 1; pass 2 recomputes
the same stale `il = 5`, `Synchronize` finds `nops = 5 - 5 = 0`, and
only 4 bytes (opcode 0xa6, post-byte 0x9f, address 0x12 0x34) are
emitted into the 5-byte slot — the emitted count differs from the
recorded pass-1 length and the hole is not filled with NOPs, violating
the length lock the claim states. -/
theorem insertBinaryCode_stale_ol_hole :
    indirectExtendedIl 2 = 5 ∧
    insertBinaryCode 0 5 (indirectExtendedIl 2) 0xa6 0x9f 2 0x1234 =
      some [0xa6, 0x9f, 0x12, 0x34] ∧
    ([0xa6, 0x9f, 0x12, 0x34] : List Int).length = 4 ∧
    (4 : Nat) ≠ 5 ∧
    encLen 0xa6 0x9f 2 = 4 := by
  refine ⟨by decide, by decide, by decide, by decide, by decide⟩

/-- Skipping spaces never lengthens the string. -/
theorem SkipSpace_length_le (p : List Char) : (SkipSpace p).length ≤ p.length := by
  induction p with
  | nil => exact le_refl 0
  | cons c r ih =>
    rw [SkipSpace]
    split
    · exact le_trans ih (Nat.le_succ _)
    · exact le_refl _

/-- A rendered register list starts with a register-name letter, so a
leading `SkipSpace` leaves it unchanged. -/
theorem SkipSpace_render (r : PushReg) (rs : List PushReg) :
    SkipSpace (renderPushList (r :: rs)) = renderPushList (r :: rs) := by
  cases rs <;> cases r <;> rfl

/-- One step of the scan loop over a register name followed by a comma:
the register is matched (DP before D, at the word boundary made by the
comma) and its mask is ORed into the accumulator. -/
theorem scanPushLoop_step (fuel : Nat) (r : PushReg) (t : List Char) (v : Nat) :
    scanPushLoop (fuel + 1) (pushRegChars r ++ ',' :: t) v =
      scanPushLoop fuel (SkipSpace t) (v ||| pushRegMask r) := by
  cases r <;> rfl

/-- The last register of the list: matched at the word boundary made by
the end of the string, terminating the loop. -/
theorem scanPushLoop_single (fuel : Nat) (r : PushReg) (v : Nat) :
    scanPushLoop (fuel + 1) (pushRegChars r) v = some (v ||| pushRegMask r) := by
  cases r <;> rfl

/-- The scan loop on a rendered register list ORs all masks into the
accumulator, given enough fuel (one unit per register). -/
theorem scanPushLoop_render (rs : List PushReg) :
    ∀ (fuel v : Nat), rs.length ≤ fuel →
      scanPushLoop fuel (renderPushList rs) v =
        some (rs.foldl (fun a r => a ||| pushRegMask r) v) := by
  induction rs with
  | nil =>
    intro fuel v _
    cases fuel <;> rfl
  | cons r rest ih =>
    intro fuel v hf
    cases fuel with
    | zero => simp at hf
    | succ f =>
      cases rest with
      | nil => exact scanPushLoop_single f r v
      | cons r2 rest2 =>
        have hren : renderPushList (r :: r2 :: rest2) =
            pushRegChars r ++ ',' :: renderPushList (r2 :: rest2) := rfl
        rw [hren, scanPushLoop_step, SkipSpace_render]
        have hf2 : (r2 :: rest2).length ≤ f := by
          simp only [List.length_cons] at hf ⊢
          omega
        exact ih f (v ||| pushRegMask r) hf2

/-- The ALL keyword test fails on every rendered register list. -/
theorem render_not_all (rs : List PushReg) :
    strcmpword (renderPushList rs) ['A', 'L', 'L'] = false := by
  cases rs with
  | nil => rfl
  | cons r rest => cases rest <;> cases r <;> rfl

/-- Every register name has at least one character. -/
theorem pushRegChars_length_pos (r : PushReg) : 1 ≤ (pushRegChars r).length := by
  cases r <;> decide

/-- A rendered list is at least as long as the register count, so the
string length passed as fuel by `ScanPushList` suffices. -/
theorem render_length_ge (rs : List PushReg) :
    rs.length ≤ (renderPushList rs).length := by
  induction rs with
  | nil => exact le_refl 0
  | cons r rest ih =>
    cases rest with
    | nil => exact pushRegChars_length_pos r
    | cons r2 rest2 =>
      have hren : renderPushList (r :: r2 :: rest2) =
          pushRegChars r ++ ',' :: renderPushList (r2 :: rest2) := rfl
      rw [hren]
      simp only [List.length_cons, List.length_append, List.length_cons]
      have h1 := pushRegChars_length_pos r
      have h2 := ih
      simp only [List.length_cons] at h2
      omega

/-- C7: for every comma-separated register list, `ScanPushList` returns
the bitwise OR of the masks of the listed registers (CC=0x01, A=0x02,
B=0x04, D=0x06, DP=0x08, X=0x10, Y=0x20, S=0x40, U=0x40, PC=0x80; the
table scan from index 9 down to 0 tries DP before D), and the operand
ALL yields the post-byte 0xff. -/
theorem ScanPushList_or_of_masks (rs : List PushReg) :
    ScanPushList (renderPushList rs) =
      some (rs.foldl (fun a r => a ||| pushRegMask r) 0) ∧
    ScanPushList ['A', 'L', 'L'] = some 0xff := by
  constructor
  · rw [ScanPushList, render_not_all]
    simp only [Bool.false_eq_true, if_false]
    exact scanPushLoop_render rs (renderPushList rs).length 0 (render_length_ge rs)
  · rfl

/-- Witness for C7 at the operand `A,DP`: mask 0x02 OR 0x08 = 0x0a. -/
theorem ScanPushList_or_of_masks_witness :
    ScanPushList (renderPushList [PushReg.A, PushReg.DP]) = some 0x0a ∧
    ScanPushList ['A', 'L', 'L'] = some 0xff :=
  ScanPushList_or_of_masks [PushReg.A, PushReg.DP]

end BS9
